import Mathlib

/-!
Verification of the Agile-Lab task tracker's task store (`src/taskManager.js`),
its statistics endpoint (`src/app.js`, `GET /api/stats`) and the pagination
utility (`src/taskUtils.js`).

Modelling conventions:
* JavaScript objects live on a heap: `Store.heap` maps numeric addresses to
  `Task` records, and the module-level `tasks` array is the list of addresses
  `Store.tasksArr` in insertion order.  Returning an object from a function
  returns its address; `{ ...task }` spreads allocate a fresh address.
  This makes the reference/copy distinction of the source observable.
* `Date.now()` / `new Date().toISOString()` readings are explicit `Nat`
  parameters (milliseconds since epoch); each separate `new Date()` in the
  source receives its own parameter.
* `Math.random().toString(36).substr(2, 9)` draws are explicit `String`
  parameters.
* Thrown `Error`s become `Except`-style error values carrying the exact
  message built by the source; mutating operations return the store alongside
  the result so that the state after a throw is explicit.
-/

deriving instance DecidableEq for Except

namespace AgileLab

/-- Model of JavaScript `String.prototype.trim`: drop leading and trailing
whitespace characters. -/
def jsTrim (s : String) : String :=
  String.mk (((s.data.dropWhile Char.isWhitespace).reverse.dropWhile Char.isWhitespace).reverse)

/-- A stored task record: the five fields built by `createTask`
(`src/taskManager.js` lines 45–51).  Timestamps are clock readings in
milliseconds (the source stores their ISO-8601 rendering). -/
structure Task where
  id : String
  title : String
  status : String
  createdAt : Nat
  updatedAt : Nat
deriving Repr, DecidableEq

/-- The error conditions thrown by the task store, carrying the message the
source puts into `new Error(...)`. -/
inductive StoreError where
  | invalidTitle (msg : String)
  | invalidStatus (msg : String)
  | notFound (msg : String)
deriving Repr, DecidableEq

/-- The task store's state: a heap of task objects addressed by `Nat`, the
next fresh address, and the module-level `tasks` array holding addresses
(references) in insertion order. -/
structure Store where
  heap : List (Nat × Task)
  nextAddr : Nat
  tasksArr : List Nat
deriving Repr, DecidableEq

/-- The initial store: `let tasks = []` with an empty heap. -/
def Store.empty : Store := ⟨[], 0, []⟩

/-- Dereference an address in a heap (first binding wins). -/
def heapFind (a : Nat) : List (Nat × Task) → Option Task
  | [] => none
  | p :: ps => if p.1 = a then some p.2 else heapFind a ps

/-- Dereference an address in a store's heap. -/
def Store.lookup (s : Store) (a : Nat) : Option Task :=
  heapFind a s.heap

/-- Overwrite the object at address `a` with record `t` (a field assignment
through a reference, e.g. `task.status = status`). -/
def Store.writeHeap (s : Store) (a : Nat) (t : Task) : Store :=
  { s with heap := s.heap.map (fun p => if p.1 = a then (a, t) else p) }

/-- Allocate a fresh object holding record `t` (an object literal or a
`{ ...task }` spread), returning its address. -/
def Store.alloc (s : Store) (t : Task) : Nat × Store :=
  (s.nextAddr,
   { s with heap := (s.nextAddr, t) :: s.heap, nextAddr := s.nextAddr + 1 })

/-- `generateId` (`src/taskManager.js` lines 24–26):
`` `task-${Date.now()}-${Math.random().toString(36).substr(2, 9)}` `` with the
clock reading `now` and the random suffix `rand` made explicit. -/
def generateId (now : Nat) (rand : String) : String :=
  "task-" ++ toString now ++ "-" ++ rand

/-- `createTask(title)` (`src/taskManager.js` lines 38–57).  `tId`, `tC` and
`tU` are the three successive clock readings (inside `generateId`, for
`createdAt` and for `updatedAt`); `rand` is the random id suffix.  The
validation `!title || typeof title !== 'string' || title.trim() === ''`
reduces, for a value that is a string, to `title.trim() === ''` (the empty
string is the only falsy string).  On success the new object is pushed onto
the `tasks` array and its reference is returned. -/
def createTask (title : String) (tId tC tU : Nat) (rand : String) (s : Store) :
    (Except StoreError Nat) × Store :=
  if jsTrim title = "" then
    (.error (.invalidTitle "Task title is required and must be a non-empty string"), s)
  else
    let task : Task :=
      { id := generateId tId rand, title := jsTrim title, status := "pending",
        createdAt := tC, updatedAt := tU }
    let p := s.alloc task
    (.ok p.1, { p.2 with tasksArr := p.2.tasksArr ++ [p.1] })

/-- `tasks.find(t => t.id === taskId)` over a list of addresses: returns the
first reference (with its record) whose record's `id` matches. -/
def findRefAux (s : Store) (taskId : String) : List Nat → Option (Nat × Task)
  | [] => none
  | a :: as =>
    match s.lookup a with
    | some t => if t.id = taskId then some (a, t) else findRefAux s taskId as
    | none => findRefAux s taskId as

/-- First task reference in the `tasks` array whose `id` matches. -/
def Store.findRef (s : Store) (taskId : String) : Option (Nat × Task) :=
  findRefAux s taskId s.tasksArr

/-- `getTaskById(taskId)` (`src/taskManager.js` lines 76–84):
`tasks.find(t => t.id === taskId) || null` — returns the stored object's
reference, or `none` for the `null` sentinel. -/
def getTaskById (taskId : String) (s : Store) : Option Nat :=
  (s.findRef taskId).map (·.1)

/-- `tasks.map(task => ({ ...task }))`: walk the array, allocating a fresh
copy of each task object; returns the copies' addresses and the heap grown by
the allocations. -/
def getTasksAux (s : Store) : List Nat → List Nat × Store
  | [] => ([], s)
  | a :: as =>
    match s.lookup a with
    | some t =>
      let p := s.alloc t
      let q := getTasksAux p.2 as
      (p.1 :: q.1, q.2)
    | none => getTasksAux s as

/-- `getTasks()` (`src/taskManager.js` lines 66–69): returns a fresh array of
fresh copies of the stored tasks. -/
def getTasks (s : Store) : List Nat × Store :=
  getTasksAux s s.tasksArr

/-- `updateTaskStatus(taskId, status)` (`src/taskManager.js` lines 97–119):
first validates `status` against `['pending', 'completed']`, then looks the
task up; on success assigns `task.status` and `task.updatedAt` through the
reference and returns that same reference.  `now` is the clock reading of the
`new Date()` in line 114. -/
def updateTaskStatus (taskId status : String) (now : Nat) (s : Store) :
    (Except StoreError Nat) × Store :=
  if !(status == "pending" || status == "completed") then
    (.error (.invalidStatus "Status must be one of: pending, completed"), s)
  else
    match s.findRef taskId with
    | none => (.error (.notFound ("Task with ID " ++ taskId ++ " not found")), s)
    | some (a, t) =>
      (.ok a, s.writeHeap a { t with status := status, updatedAt := now })

/-- `tasks.findIndex(t => t.id === taskId)` followed by `tasks.splice(index, 1)`:
remove the first matching reference from the array, returning it and the
remaining array. -/
def deleteTaskAux (s : Store) (taskId : String) : List Nat → Option (Nat × List Nat)
  | [] => none
  | a :: as =>
    match s.lookup a with
    | some t =>
      if t.id = taskId then some (a, as)
      else (deleteTaskAux s taskId as).map (fun p => (p.1, a :: p.2))
    | none => (deleteTaskAux s taskId as).map (fun p => (p.1, a :: p.2))

/-- `deleteTask(taskId)` (`src/taskManager.js` lines 127–138): splices the
first matching task out of the array and returns its reference; throws
not-found when no task matches.  The heap keeps the removed object (the
caller still holds a usable reference to it). -/
def deleteTask (taskId : String) (s : Store) : (Except StoreError Nat) × Store :=
  match deleteTaskAux s taskId s.tasksArr with
  | none => (.error (.notFound ("Task with ID " ++ taskId ++ " not found")), s)
  | some (a, rest) => (.ok a, { s with tasksArr := rest })

/-- `clearTasks()` (`src/taskManager.js` lines 143–146): `tasks = []`. -/
def clearTasks (s : Store) : Store :=
  { s with tasksArr := [] }

/-- `getTaskCount()` (`src/taskManager.js` lines 152–154): `tasks.length`. -/
def getTaskCount (s : Store) : Nat :=
  s.tasksArr.length

/-- `getCompletedTaskCount()` (`src/taskManager.js` lines 160–162):
`tasks.filter(t => t.status === 'completed').length`. -/
def getCompletedTaskCount (s : Store) : Nat :=
  (s.tasksArr.filter (fun a =>
    match s.lookup a with
    | some t => t.status == "completed"
    | none => false)).length

/-- Observation: the sequence of task records currently reachable through the
`tasks` array, in insertion order (what a caller sees by dereferencing a
`list()` result). -/
def Store.listValues (s : Store) : List Task :=
  s.tasksArr.filterMap s.lookup

/-- Observation: the record `getTaskById` lets a caller read, if any. -/
def Store.getByIdValue (s : Store) (taskId : String) : Option Task :=
  (s.findRef taskId).map (·.2)

/-- A caller mutating fields of an object it holds a reference to
(e.g. `returned.title = '...'`). -/
def mutateRef (s : Store) (a : Nat) (f : Task → Task) : Store :=
  match s.lookup a with
  | some t => s.writeHeap a (f t)
  | none => s

/-- Well-formedness of a store state: every reference in the `tasks` array
dereferences, all addresses in use are below `nextAddr`, and the array holds
no duplicate references.  (JavaScript guarantees all of this: array slots
hold live object references and every allocation is fresh.) -/
def Store.WF (s : Store) : Prop :=
  (∀ a ∈ s.tasksArr, (s.lookup a).isSome = true) ∧
  (∀ a ∈ s.tasksArr, a < s.nextAddr) ∧
  s.tasksArr.Nodup ∧
  (∀ p ∈ s.heap, p.1 < s.nextAddr)

instance (s : Store) : Decidable s.WF := by
  unfold Store.WF; infer_instance

/-- JavaScript `Math.round` on an exact (non-negative) rational value:
round half up, `Math.round(x) = ⌊x + 0.5⌋`. -/
def mathRound (q : ℚ) : ℤ :=
  ⌊q + 1/2⌋

/-- The response data of `GET /api/stats`. -/
structure Stats where
  totalTasks : Nat
  completedTasks : Nat
  pendingTasks : Nat
  completionRate : ℤ
deriving Repr, DecidableEq

/-- The `GET /api/stats` handler computation (`src/app.js` lines 165–188):
`totalTasks = getTaskCount()`, `completedTasks = getCompletedTaskCount()`,
`pendingTasks = totalTasks - completedTasks`, and
`completionRate = totalTasks > 0 ? Math.round((completedTasks / totalTasks) * 100) : 0`. -/
def getStats (s : Store) : Stats :=
  let totalTasks := getTaskCount s
  let completedTasks := getCompletedTaskCount s
  { totalTasks := totalTasks
    completedTasks := completedTasks
    pendingTasks := totalTasks - completedTasks
    completionRate :=
      if 0 < totalTasks then mathRound ((completedTasks : ℚ) / (totalTasks : ℚ) * 100)
      else 0 }

/-- The record returned by `paginateTasks`. -/
structure PaginationResult where
  tasks : List Task
  page : Nat
  pageSize : Nat
  totalPages : Nat
  totalItems : Nat
  hasNextPage : Bool
  hasPrevPage : Bool
deriving Repr, DecidableEq

/-- `paginateTasks(tasks, page, pageSize)` (`src/taskUtils.js` lines 115–143)
on an array input: `totalPages = Math.ceil(totalItems / pageSize)`,
`currentPage = Math.max(1, Math.min(page, totalPages || 1))`,
slice `tasks.slice(startIndex, startIndex + pageSize)` with
`startIndex = (currentPage - 1) * pageSize`, and the two availability flags
`currentPage < totalPages` and `currentPage > 1`.  The requested `page` may
be any integer (it gets clamped).  `pageSize` is assumed positive: with
`pageSize = 0` the JavaScript produces an `Infinity` page count, which is
outside this integer model. -/
def paginateTasks (tasks : List Task) (page : Int) (pageSize : Nat) : PaginationResult :=
  let totalItems := tasks.length
  let totalPages := (totalItems + pageSize - 1) / pageSize
  let currentPage :=
    (max 1 (min page (if totalPages = 0 then 1 else (totalPages : Int)))).toNat
  let startIndex := (currentPage - 1) * pageSize
  { tasks := (tasks.drop startIndex).take pageSize
    page := currentPage
    pageSize := pageSize
    totalPages := totalPages
    totalItems := totalItems
    hasNextPage := decide (currentPage < totalPages)
    hasPrevPage := decide (1 < currentPage) }

/-! ### Heap and store lemmas -/

theorem heapFind_map_write (b a : Nat) (t : Task) (hs : List (Nat × Task)) :
    heapFind b (hs.map (fun p => if p.1 = a then (a, t) else p)) =
      if b = a then (heapFind b hs).map (fun _ => t) else heapFind b hs := by
  induction hs with
  | nil => simp [heapFind]
  | cons p ps ih =>
    simp only [List.map_cons]
    by_cases hpa : p.1 = a
    · by_cases hba : b = a
      · subst hba
        simp [heapFind, hpa]
      · simp [heapFind, hpa, hba, Ne.symm hba, ih]
    · by_cases hba : b = a
      · subst hba
        simp [heapFind, hpa, ih]
      · by_cases hpb : p.1 = b
        · simp [heapFind, hpa, hpb, hba]
        · simp [heapFind, hpa, hpb, hba, ih]

theorem Store.lookup_writeHeap (s : Store) (a : Nat) (t : Task) (b : Nat) :
    (s.writeHeap a t).lookup b =
      if b = a then (s.lookup b).map (fun _ => t) else s.lookup b := by
  by_cases hba : b = a
  · subst hba
    simpa [Store.writeHeap, Store.lookup] using heapFind_map_write b b t s.heap
  · simpa [Store.writeHeap, Store.lookup, hba] using heapFind_map_write b a t s.heap

@[simp] theorem Store.tasksArr_writeHeap (s : Store) (a : Nat) (t : Task) :
    (s.writeHeap a t).tasksArr = s.tasksArr := rfl

@[simp] theorem Store.nextAddr_writeHeap (s : Store) (a : Nat) (t : Task) :
    (s.writeHeap a t).nextAddr = s.nextAddr := rfl

@[simp] theorem Store.fst_alloc (s : Store) (t : Task) : (s.alloc t).1 = s.nextAddr := rfl

@[simp] theorem Store.tasksArr_alloc (s : Store) (t : Task) :
    (s.alloc t).2.tasksArr = s.tasksArr := rfl

@[simp] theorem Store.nextAddr_alloc (s : Store) (t : Task) :
    (s.alloc t).2.nextAddr = s.nextAddr + 1 := rfl

theorem Store.lookup_alloc (s : Store) (t : Task) (b : Nat) :
    (s.alloc t).2.lookup b = if s.nextAddr = b then some t else s.lookup b := by
  simp [Store.alloc, Store.lookup, heapFind]

/-! ### Lemmas about reference search -/

theorem findRefAux_congr {s₁ s₂ : Store} (taskId : String) {as : List Nat}
    (h : ∀ a ∈ as, s₁.lookup a = s₂.lookup a) :
    findRefAux s₁ taskId as = findRefAux s₂ taskId as := by
  induction as with
  | nil => rfl
  | cons b bs ih =>
    have hb := h b (by simp)
    have htail : ∀ a ∈ bs, s₁.lookup a = s₂.lookup a := fun a ha => h a (by simp [ha])
    simp only [findRefAux, hb, ih htail]

theorem findRefAux_eq_some {s : Store} {taskId : String} {as : List Nat} {a : Nat} {t : Task}
    (h : findRefAux s taskId as = some (a, t)) :
    a ∈ as ∧ s.lookup a = some t ∧ t.id = taskId := by
  induction as with
  | nil => simp [findRefAux] at h
  | cons b bs ih =>
    cases hb : s.lookup b with
    | some tb =>
      by_cases hid : tb.id = taskId
      · simp only [findRefAux, hb, if_pos hid, Option.some.injEq, Prod.mk.injEq] at h
        obtain ⟨rfl, rfl⟩ := h
        exact ⟨by simp, hb, hid⟩
      · simp only [findRefAux, hb, if_neg hid] at h
        obtain ⟨hmem, hl, hi⟩ := ih h
        exact ⟨by simp [hmem], hl, hi⟩
    | none =>
      simp only [findRefAux, hb] at h
      obtain ⟨hmem, hl, hi⟩ := ih h
      exact ⟨by simp [hmem], hl, hi⟩

theorem findRefAux_eq_none_iff {s : Store} {taskId : String} {as : List Nat} :
    findRefAux s taskId as = none ↔
      ∀ a ∈ as, ∀ t, s.lookup a = some t → t.id ≠ taskId := by
  induction as with
  | nil => simp [findRefAux]
  | cons b bs ih =>
    cases hb : s.lookup b with
    | some tb =>
      by_cases hid : tb.id = taskId
      · simp only [findRefAux, hb, if_pos hid, reduceCtorEq, false_iff]
        intro hall
        exact hall b (by simp) tb hb hid
      · simp only [findRefAux, hb, if_neg hid, ih]
        constructor
        · intro hall a ha u hu
          rcases List.mem_cons.mp ha with rfl | ha
          · rw [hb] at hu
            cases hu
            exact hid
          · exact hall a ha u hu
        · intro hall a ha u hu
          exact hall a (by simp [ha]) u hu
    | none =>
      simp only [findRefAux, hb, ih]
      constructor
      · intro hall a ha u hu
        rcases List.mem_cons.mp ha with rfl | ha
        · rw [hb] at hu
          cases hu
        · exact hall a ha u hu
      · intro hall a ha u hu
        exact hall a (by simp [ha]) u hu

theorem findRefAux_writeHeap {s : Store} {taskId : String} {as : List Nat} {a : Nat}
    {t u : Task} (h : findRefAux s taskId as = some (a, t)) (hu : u.id = taskId) :
    findRefAux (s.writeHeap a u) taskId as = some (a, u) := by
  induction as with
  | nil => simp [findRefAux] at h
  | cons b bs ih =>
    cases hb : s.lookup b with
    | some tb =>
      by_cases hid : tb.id = taskId
      · simp only [findRefAux, hb, if_pos hid, Option.some.injEq, Prod.mk.injEq] at h
        obtain ⟨rfl, rfl⟩ := h
        have hwb : (s.writeHeap b u).lookup b = some u := by
          rw [Store.lookup_writeHeap, if_pos rfl, hb]
          rfl
        simp only [findRefAux, hwb, if_pos hu]
      · simp only [findRefAux, hb, if_neg hid] at h
        have hlt := (findRefAux_eq_some h).2.1
        have hba : b ≠ a := by
          rintro rfl
          rw [hb] at hlt
          cases hlt
          exact hid (findRefAux_eq_some h).2.2
        have hwb : (s.writeHeap a u).lookup b = some tb := by
          rw [Store.lookup_writeHeap, if_neg hba, hb]
        simp only [findRefAux, hwb, if_neg hid]
        exact ih h
    | none =>
      simp only [findRefAux, hb] at h
      have hlt := (findRefAux_eq_some h).2.1
      have hba : b ≠ a := by
        rintro rfl
        rw [hb] at hlt
        cases hlt
      have hwb : (s.writeHeap a u).lookup b = none := by
        rw [Store.lookup_writeHeap, if_neg hba, hb]
      simp only [findRefAux, hwb]
      exact ih h

/-! ### Lemmas about observations -/

theorem Store.listValues_eq_of_lookup_eq {s₁ s₂ : Store} (harr : s₁.tasksArr = s₂.tasksArr)
    (h : ∀ a ∈ s₂.tasksArr, s₁.lookup a = s₂.lookup a) : s₁.listValues = s₂.listValues := by
  unfold Store.listValues
  rw [harr]
  exact List.filterMap_congr h

theorem Store.listValues_writeHeap_of_not_mem {s : Store} {a : Nat} (t : Task)
    (h : a ∉ s.tasksArr) : (s.writeHeap a t).listValues = s.listValues := by
  refine Store.listValues_eq_of_lookup_eq rfl fun b hb => ?_
  rw [Store.lookup_writeHeap, if_neg]
  rintro rfl
  exact h hb

theorem Store.getByIdValue_writeHeap_of_not_mem {s : Store} {a : Nat} (t : Task)
    (h : a ∉ s.tasksArr) (taskId : String) :
    (s.writeHeap a t).getByIdValue taskId = s.getByIdValue taskId := by
  unfold Store.getByIdValue Store.findRef
  rw [Store.tasksArr_writeHeap]
  rw [findRefAux_congr taskId (fun b hb => ?_)]
  rw [Store.lookup_writeHeap, if_neg]
  rintro rfl
  exact h hb

/-! ### Characterization of the operations -/

theorem createTask_invalid {title : String} (h : jsTrim title = "") (tId tC tU : Nat)
    (rand : String) (s : Store) :
    createTask title tId tC tU rand s =
      (.error (.invalidTitle "Task title is required and must be a non-empty string"), s) := by
  simp [createTask, h]

theorem createTask_ok {title : String} (h : jsTrim title ≠ "") (tId tC tU : Nat)
    (rand : String) (s : Store) :
    createTask title tId tC tU rand s =
      (.ok s.nextAddr,
       { heap := (s.nextAddr, ⟨generateId tId rand, jsTrim title, "pending", tC, tU⟩) :: s.heap,
         nextAddr := s.nextAddr + 1,
         tasksArr := s.tasksArr ++ [s.nextAddr] }) := by
  simp [createTask, h, Store.alloc]

theorem listValues_createTask {s : Store} (hlt : ∀ a ∈ s.tasksArr, a < s.nextAddr)
    {title : String} (h : jsTrim title ≠ "") (tId tC tU : Nat) (rand : String) :
    (createTask title tId tC tU rand s).2.listValues =
      s.listValues ++ [⟨generateId tId rand, jsTrim title, "pending", tC, tU⟩] := by
  rw [createTask_ok h]
  unfold Store.listValues
  simp only [List.filterMap_append]
  congr 1
  · refine List.filterMap_congr fun x hx => ?_
    have hxlt : x < s.nextAddr := hlt x hx
    simp only [Store.lookup, heapFind]
    rw [if_neg (by omega)]
  · simp [Store.lookup, heapFind]

theorem statusValid_cond {status : String} (h : status = "pending" ∨ status = "completed") :
    (status == "pending" || status == "completed") = true := by
  rcases h with rfl | rfl <;> simp

theorem statusInvalid_cond {status : String} (h1 : status ≠ "pending")
    (h2 : status ≠ "completed") :
    (status == "pending" || status == "completed") = false := by
  simp [h1, h2]

theorem updateTaskStatus_invalid {status : String} (h1 : status ≠ "pending")
    (h2 : status ≠ "completed") (taskId : String) (now : Nat) (s : Store) :
    updateTaskStatus taskId status now s =
      (.error (.invalidStatus "Status must be one of: pending, completed"), s) := by
  rw [updateTaskStatus, statusInvalid_cond h1 h2]
  rfl

theorem updateTaskStatus_notFound {status : String}
    (h : status = "pending" ∨ status = "completed") {taskId : String} {s : Store}
    (hf : s.findRef taskId = none) (now : Nat) :
    updateTaskStatus taskId status now s =
      (.error (.notFound ("Task with ID " ++ taskId ++ " not found")), s) := by
  rw [updateTaskStatus, statusValid_cond h]
  simp [hf]

theorem updateTaskStatus_found {status : String}
    (h : status = "pending" ∨ status = "completed") {taskId : String} {s : Store}
    {a : Nat} {t : Task} (hf : s.findRef taskId = some (a, t)) (now : Nat) :
    updateTaskStatus taskId status now s =
      (.ok a, s.writeHeap a { t with status := status, updatedAt := now }) := by
  rw [updateTaskStatus, statusValid_cond h]
  simp [hf]

theorem deleteTaskAux_eq_none_iff {s : Store} {taskId : String} {as : List Nat} :
    deleteTaskAux s taskId as = none ↔ findRefAux s taskId as = none := by
  induction as with
  | nil => simp [deleteTaskAux, findRefAux]
  | cons b bs ih =>
    cases hb : s.lookup b with
    | some tb =>
      by_cases hid : tb.id = taskId
      · simp [deleteTaskAux, findRefAux, hb, hid]
      · simp [deleteTaskAux, findRefAux, hb, hid, Option.map_eq_none', ih]
    | none => simp [deleteTaskAux, findRefAux, hb, Option.map_eq_none', ih]

theorem deleteTaskAux_eq_some {s : Store} {taskId : String} {as : List Nat} {a : Nat}
    {rest : List Nat} (h : deleteTaskAux s taskId as = some (a, rest)) :
    as.length = rest.length + 1 ∧ (∃ t, s.lookup a = some t ∧ t.id = taskId) ∧
      rest.Sublist as := by
  induction as generalizing rest with
  | nil => simp [deleteTaskAux] at h
  | cons b bs ih =>
    cases hb : s.lookup b with
    | some tb =>
      by_cases hid : tb.id = taskId
      · simp only [deleteTaskAux, hb, if_pos hid, Option.some.injEq, Prod.mk.injEq] at h
        obtain ⟨rfl, rfl⟩ := h
        exact ⟨by simp, ⟨tb, hb, hid⟩, List.sublist_cons_self b bs⟩
      · simp only [deleteTaskAux, hb, if_neg hid, Option.map_eq_some'] at h
        obtain ⟨⟨a1, rest1⟩, haux, heq⟩ := h
        obtain ⟨rfl, rfl⟩ : a1 = a ∧ b :: rest1 = rest := by
          simpa using heq
        obtain ⟨hlen, ht, hsub⟩ := ih haux
        exact ⟨by simpa using hlen, ht, List.Sublist.cons₂ b hsub⟩
    | none =>
      simp only [deleteTaskAux, hb, Option.map_eq_some'] at h
      obtain ⟨⟨a1, rest1⟩, haux, heq⟩ := h
      obtain ⟨rfl, rfl⟩ : a1 = a ∧ b :: rest1 = rest := by
        simpa using heq
      obtain ⟨hlen, ht, hsub⟩ := ih haux
      exact ⟨by simpa using hlen, ht, List.Sublist.cons₂ b hsub⟩

theorem findRefAux_delete_rest {s : Store} {taskId : String} {as : List Nat} {a : Nat}
    {rest : List Nat} (h : deleteTaskAux s taskId as = some (a, rest))
    (hnd : ((as.filterMap s.lookup).map Task.id).Nodup) :
    findRefAux s taskId rest = none := by
  induction as generalizing rest with
  | nil => simp [deleteTaskAux] at h
  | cons b bs ih =>
    cases hb : s.lookup b with
    | some tb =>
      have hnd' : ((bs.filterMap s.lookup).map Task.id).Nodup ∧
          tb.id ∉ (bs.filterMap s.lookup).map Task.id := by
        have : (b :: bs).filterMap s.lookup = tb :: bs.filterMap s.lookup := by
          simp [List.filterMap_cons, hb]
        rw [this] at hnd
        simp only [List.map_cons, List.nodup_cons] at hnd
        exact ⟨hnd.2, hnd.1⟩
      by_cases hid : tb.id = taskId
      · simp only [deleteTaskAux, hb, if_pos hid, Option.some.injEq, Prod.mk.injEq] at h
        obtain ⟨rfl, rfl⟩ := h
        rw [findRefAux_eq_none_iff]
        intro x hx u hu huid
        have hmem : u.id ∈ (bs.filterMap s.lookup).map Task.id :=
          List.mem_map_of_mem Task.id (List.mem_filterMap.mpr ⟨x, hx, hu⟩)
        rw [huid, ← hid] at hmem
        exact hnd'.2 hmem
      · simp only [deleteTaskAux, hb, if_neg hid, Option.map_eq_some'] at h
        obtain ⟨⟨a1, rest1⟩, haux, heq⟩ := h
        obtain ⟨rfl, rfl⟩ : a1 = a ∧ b :: rest1 = rest := by
          simpa using heq
        simp only [findRefAux, hb, if_neg hid]
        exact ih haux hnd'.1
    | none =>
      have hnd' : ((bs.filterMap s.lookup).map Task.id).Nodup := by
        have : (b :: bs).filterMap s.lookup = bs.filterMap s.lookup := by
          simp [List.filterMap_cons, hb]
        rwa [this] at hnd
      simp only [deleteTaskAux, hb, Option.map_eq_some'] at h
      obtain ⟨⟨a1, rest1⟩, haux, heq⟩ := h
      obtain ⟨rfl, rfl⟩ : a1 = a ∧ b :: rest1 = rest := by
        simpa using heq
      simp only [findRefAux, hb]
      exact ih haux hnd'

/-! ### Well-formedness preservation -/

theorem Store.WF.writeHeap {s : Store} (hs : s.WF) (a : Nat) (t : Task) :
    (s.writeHeap a t).WF := by
  obtain ⟨h1, h2, h3, h4⟩ := hs
  refine ⟨?_, ?_, ?_, ?_⟩
  · intro x hx
    rw [Store.tasksArr_writeHeap] at hx
    rw [Store.lookup_writeHeap]
    by_cases hxa : x = a
    · rw [if_pos hxa]
      have := h1 x hx
      cases hl : s.lookup x with
      | some u => simp
      | none => rw [hl] at this; simp at this
    · rw [if_neg hxa]
      exact h1 x hx
  · intro x hx
    exact h2 x hx
  · exact h3
  · intro p hp
    simp only [Store.writeHeap, List.mem_map] at hp
    obtain ⟨q, hq, rfl⟩ := hp
    by_cases hqa : q.1 = a
    · simpa [hqa] using hqa ▸ h4 q hq
    · simpa [hqa] using h4 q hq

theorem Store.WF.createTask {s : Store} (hs : s.WF) (title : String) (tId tC tU : Nat)
    (rand : String) :
    (createTask title tId tC tU rand s).2.WF := by
  by_cases h : jsTrim title = ""
  · rw [createTask_invalid h]
    exact hs
  · rw [createTask_ok h]
    obtain ⟨h1, h2, h3, h4⟩ := hs
    show Store.WF
      { heap := (s.nextAddr, ⟨generateId tId rand, jsTrim title, "pending", tC, tU⟩) :: s.heap,
        nextAddr := s.nextAddr + 1, tasksArr := s.tasksArr ++ [s.nextAddr] }
    refine ⟨?_, ?_, ?_, ?_⟩ <;> dsimp only
    · intro x hx
      simp only [List.mem_append, List.mem_singleton] at hx
      simp only [Store.lookup, heapFind]
      rcases hx with hx | rfl
      · rw [if_neg (by have := h2 x hx; omega)]
        exact h1 x hx
      · simp
    · intro x hx
      simp only [List.mem_append, List.mem_singleton] at hx
      rcases hx with hx | rfl
      · have := h2 x hx; omega
      · omega
    · refine List.Nodup.append h3 (List.nodup_singleton _) ?_
      intro x hx hx'
      simp only [List.mem_singleton] at hx'
      subst hx'
      have := h2 _ hx
      omega
    · intro p hp
      simp only [List.mem_cons] at hp
      rcases hp with rfl | hp
      · simp
      · have := h4 p hp; omega

theorem Store.WF.updateTaskStatus {s : Store} (hs : s.WF) (taskId status : String)
    (now : Nat) :
    (updateTaskStatus taskId status now s).2.WF := by
  by_cases hv : status = "pending" ∨ status = "completed"
  · cases hf : s.findRef taskId with
    | none => rw [updateTaskStatus_notFound hv hf]; exact hs
    | some p =>
      obtain ⟨a, t⟩ := p
      rw [updateTaskStatus_found hv hf]
      exact hs.writeHeap a _
  · push_neg at hv
    rw [updateTaskStatus_invalid hv.1 hv.2]
    exact hs

theorem Store.WF.deleteTask {s : Store} (hs : s.WF) (taskId : String) :
    (deleteTask taskId s).2.WF := by
  unfold AgileLab.deleteTask
  cases hd : deleteTaskAux s taskId s.tasksArr with
  | none => exact hs
  | some p =>
    obtain ⟨a, rest⟩ := p
    obtain ⟨h1, h2, h3, h4⟩ := hs
    have hsub := (deleteTaskAux_eq_some hd).2.2
    exact ⟨fun x hx => h1 x (hsub.mem hx), fun x hx => h2 x (hsub.mem hx),
      h3.sublist hsub, h4⟩

/-! ### Behaviour of the copying list operation -/

theorem getTasksAux_spec (taskIds : List Nat) (s : Store)
    (hlt : ∀ a ∈ taskIds, a < s.nextAddr) :
    (getTasksAux s taskIds).2.tasksArr = s.tasksArr ∧
    s.nextAddr ≤ (getTasksAux s taskIds).2.nextAddr ∧
    (∀ b ∈ (getTasksAux s taskIds).1, s.nextAddr ≤ b) ∧
    (∀ x, x < s.nextAddr → (getTasksAux s taskIds).2.lookup x = s.lookup x) := by
  induction taskIds generalizing s with
  | nil => simp [getTasksAux]
  | cons a as ih =>
    cases hla : s.lookup a with
    | some t =>
      simp only [getTasksAux, hla]
      have hlt' : ∀ x ∈ as, x < (s.alloc t).2.nextAddr := by
        intro x hx
        have := hlt x (by simp [hx])
        simp only [Store.nextAddr_alloc]
        omega
      obtain ⟨e1, e2, e3, e4⟩ := ih (s.alloc t).2 hlt'
      simp only [Store.nextAddr_alloc] at e2 e3 e4
      refine ⟨by simpa using e1, by omega, ?_, ?_⟩
      · intro b hb
        simp only [List.mem_cons] at hb
        rcases hb with rfl | hb
        · simp
        · have := e3 b hb; omega
      · intro x hx
        rw [e4 x (by omega), Store.lookup_alloc, if_neg (by omega)]
    | none =>
      simp only [getTasksAux, hla]
      exact ih s fun x hx => hlt x (by simp [hx])

theorem deleteTask_notFound {s : Store} {taskId : String} (hf : s.findRef taskId = none) :
    deleteTask taskId s =
      (.error (.notFound ("Task with ID " ++ taskId ++ " not found")), s) := by
  have hd : deleteTaskAux s taskId s.tasksArr = none := deleteTaskAux_eq_none_iff.mpr hf
  unfold AgileLab.deleteTask
  rw [hd]

theorem deleteTask_found {s : Store} {taskId : String} {a : Nat} {rest : List Nat}
    (hd : deleteTaskAux s taskId s.tasksArr = some (a, rest)) :
    deleteTask taskId s = (.ok a, { s with tasksArr := rest }) := by
  unfold AgileLab.deleteTask
  rw [hd]

/-! ### Claims -/

/-- C9: `updateTaskStatus` validates the status argument before looking up the
task: for every id and every status outside the two-member enum the call fails
with the invalid-status error (whose message enumerates the two allowed
values) and never with not-found; the not-found error arises exactly when the
status is one of the two allowed values and no task with the id exists. -/
theorem c9_update_validates_status_first (taskId status : String) (now : Nat) (s : Store) :
    (status ≠ "pending" ∧ status ≠ "completed" →
      updateTaskStatus taskId status now s =
        (.error (.invalidStatus "Status must be one of: pending, completed"), s)) ∧
    ((status = "pending" ∨ status = "completed") → s.findRef taskId = none →
      updateTaskStatus taskId status now s =
        (.error (.notFound ("Task with ID " ++ taskId ++ " not found")), s)) ∧
    (∀ msg, (updateTaskStatus taskId status now s).1 = .error (.notFound msg) →
      (status = "pending" ∨ status = "completed") ∧ s.findRef taskId = none) := by
  refine ⟨fun h => updateTaskStatus_invalid h.1 h.2 taskId now s,
          fun hv hf => updateTaskStatus_notFound hv hf now, ?_⟩
  intro msg hmsg
  by_cases hv : status = "pending" ∨ status = "completed"
  · cases hf : s.findRef taskId with
    | none => exact ⟨hv, rfl⟩
    | some p =>
      obtain ⟨a, t⟩ := p
      rw [updateTaskStatus_found hv hf] at hmsg
      simp at hmsg
  · push_neg at hv
    rw [updateTaskStatus_invalid hv.1 hv.2] at hmsg
    simp at hmsg

/-- Witness for C9 at a concrete input: status `"done"` on the empty store
fails with the invalid-status error, not with not-found. -/
theorem c9_witness :
    updateTaskStatus "x" "done" 0 Store.empty =
      (.error (.invalidStatus "Status must be one of: pending, completed"), Store.empty) :=
  (c9_update_validates_status_first "x" "done" 0 Store.empty).1 ⟨by decide, by decide⟩

/-- C10: every failing store operation is atomic: whenever `createTask`,
`updateTaskStatus` or `deleteTask` reports an error, the store state it
returns — array length, order and every field of every task — is exactly the
state before the call. -/
theorem c10_failing_ops_atomic (title taskId status : String) (tId tC tU now : Nat)
    (rand : String) (s : Store) :
    (∀ e, (createTask title tId tC tU rand s).1 = .error e →
      (createTask title tId tC tU rand s).2 = s) ∧
    (∀ e, (updateTaskStatus taskId status now s).1 = .error e →
      (updateTaskStatus taskId status now s).2 = s) ∧
    (∀ e, (deleteTask taskId s).1 = .error e → (deleteTask taskId s).2 = s) := by
  refine ⟨?_, ?_, ?_⟩
  · intro e he
    by_cases h : jsTrim title = ""
    · rw [createTask_invalid h]
    · rw [createTask_ok h] at he
      simp at he
  · intro e he
    by_cases hv : status = "pending" ∨ status = "completed"
    · cases hf : s.findRef taskId with
      | none => rw [updateTaskStatus_notFound hv hf]
      | some p =>
        obtain ⟨a, t⟩ := p
        rw [updateTaskStatus_found hv hf] at he
        simp at he
    · push_neg at hv
      rw [updateTaskStatus_invalid hv.1 hv.2]
  · intro e he
    cases hd : deleteTaskAux s taskId s.tasksArr with
    | none =>
      have hf : s.findRef taskId = none := deleteTaskAux_eq_none_iff.mp hd
      rw [deleteTask_notFound hf]
    | some p =>
      obtain ⟨a, rest⟩ := p
      rw [deleteTask_found hd] at he
      simp at he

/-- Witness for C10 at concrete failing inputs: an empty title, an invalid
status, and a delete of a missing id each leave the empty store unchanged. -/
theorem c10_witness :
    (createTask "" 0 0 0 "r" Store.empty).2 = Store.empty ∧
    (updateTaskStatus "x" "bogus" 0 Store.empty).2 = Store.empty ∧
    (deleteTask "x" Store.empty).2 = Store.empty :=
  ⟨(c10_failing_ops_atomic "" "x" "bogus" 0 0 0 0 "r" Store.empty).1
      (.invalidTitle "Task title is required and must be a non-empty string") (by decide),
   (c10_failing_ops_atomic "" "x" "bogus" 0 0 0 0 "r" Store.empty).2.1
      (.invalidStatus "Status must be one of: pending, completed") (by decide),
   (c10_failing_ops_atomic "" "x" "bogus" 0 0 0 0 "r" Store.empty).2.2
      (.notFound "Task with ID x not found") (by decide)⟩

/-- A 201-character title, unchanged by trimming. -/
def longTitle : String :=
  String.mk (List.replicate 201 'a')

set_option maxRecDepth 8000

/-- C2 counterexample: a title of 201 characters after trimming is accepted
by `createTask` — the call returns ok and the task is stored — where the
claim demands an invalid-title failure with no task added.  The 200-character
bound exists only in `validateTaskTitle` (`src/validation.js`), which no
production code path calls. -/
theorem c2_counterexample :
    200 < (jsTrim longTitle).length ∧
    (createTask longTitle 0 0 0 "r" Store.empty).1 = .ok 0 ∧
    getTaskCount (createTask longTitle 0 0 0 "r" Store.empty).2 = 1 :=
  ⟨by decide, by decide, by decide⟩

/-- C2 amended: `createTask` performs no length check: every title longer
than 200 characters after trimming is accepted and appended, and the count
increases by one, rather than failing with the invalid-title error. -/
theorem c2_amended_long_titles_accepted (title : String) (tId tC tU : Nat) (rand : String)
    (s : Store) (h : 200 < (jsTrim title).length) :
    (createTask title tId tC tU rand s).1 = .ok s.nextAddr ∧
    getTaskCount (createTask title tId tC tU rand s).2 = getTaskCount s + 1 := by
  have hne : jsTrim title ≠ "" := by
    intro h0
    rw [h0] at h
    simp at h
  rw [createTask_ok hne]
  exact ⟨rfl, by simp [getTaskCount]⟩

/-- Witness for the amended C2 at the concrete 201-character title. -/
theorem c2_amended_witness :
    (createTask longTitle 1 2 3 "s" Store.empty).1 = .ok Store.empty.nextAddr ∧
    getTaskCount (createTask longTitle 1 2 3 "s" Store.empty).2 =
      getTaskCount Store.empty + 1 :=
  c2_amended_long_titles_accepted longTitle 1 2 3 "s" Store.empty (by decide)

/-- C3 counterexample: `createdAt` and `updatedAt` of a created task come
from two separate `new Date()` calls; on the execution where the clock reads
0 for the first and 1 for the second, the stored task has `createdAt = 0` and
`updatedAt = 1`, where the claim demands `createdAt` equal to `updatedAt`. -/
theorem c3_counterexample :
    ((createTask "a" 0 0 1 "r" Store.empty).2.listValues.map
        (fun t => (t.createdAt, t.updatedAt))) = [(0, 1)] ∧ (0 : Nat) ≠ 1 :=
  ⟨by decide, by decide⟩

/-- C3 amended: for every title that trims non-empty, `createTask` succeeds:
the stored task (to which the returned reference points) has status
`"pending"`, title equal to the trimmed input, `createdAt` and `updatedAt`
equal to the two successive clock readings — so they coincide exactly when
the two `new Date()` calls read the same millisecond, and `createdAt ≤
updatedAt` under a monotone clock — and the task is appended at the end of
the ordered collection with the count increasing by exactly one. -/
theorem c3_amended_create_valid (title : String) (tId tC tU : Nat) (rand : String)
    (s : Store) (hWF : s.WF) (hv : jsTrim title ≠ "") (hm : tC ≤ tU) :
    (createTask title tId tC tU rand s).1 = .ok s.nextAddr ∧
    (createTask title tId tC tU rand s).2.lookup s.nextAddr =
      some ⟨generateId tId rand, jsTrim title, "pending", tC, tU⟩ ∧
    (createTask title tId tC tU rand s).2.listValues =
      s.listValues ++ [⟨generateId tId rand, jsTrim title, "pending", tC, tU⟩] ∧
    getTaskCount (createTask title tId tC tU rand s).2 = getTaskCount s + 1 ∧
    tC ≤ tU := by
  refine ⟨by rw [createTask_ok hv], ?_, listValues_createTask hWF.2.1 hv tId tC tU rand,
    ?_, hm⟩
  · rw [createTask_ok hv]
    simp [Store.lookup, heapFind]
  · rw [createTask_ok hv]
    simp [getTaskCount]

/-- Witness for the amended C3 at a concrete input: creating `"  hi  "` on
the empty store with clock readings 5, 6, 6 stores
`⟨"task-5-r", "hi", "pending", 6, 6⟩`. -/
theorem c3_amended_witness :
    (createTask "  hi  " 5 6 6 "r" Store.empty).1 = .ok Store.empty.nextAddr ∧
    (createTask "  hi  " 5 6 6 "r" Store.empty).2.lookup Store.empty.nextAddr =
      some ⟨generateId 5 "r", jsTrim "  hi  ", "pending", 6, 6⟩ ∧
    (createTask "  hi  " 5 6 6 "r" Store.empty).2.listValues =
      Store.empty.listValues ++ [⟨generateId 5 "r", jsTrim "  hi  ", "pending", 6, 6⟩] ∧
    getTaskCount (createTask "  hi  " 5 6 6 "r" Store.empty).2 =
      getTaskCount Store.empty + 1 ∧
    6 ≤ 6 :=
  c3_amended_create_valid "  hi  " 5 6 6 "r" Store.empty (by decide) (by decide) (by decide)

/-- All live tasks carry pairwise distinct ids. -/
def Store.uniqueIds (s : Store) : Prop :=
  (s.listValues.map Task.id).Nodup

instance (s : Store) : Decidable s.uniqueIds := by
  unfold Store.uniqueIds; infer_instance

theorem deleteTaskAux_of_findRefAux {s : Store} {taskId : String} {as : List Nat}
    {a : Nat} {t : Task} (h : findRefAux s taskId as = some (a, t)) :
    ∃ rest, deleteTaskAux s taskId as = some (a, rest) := by
  induction as with
  | nil => simp [findRefAux] at h
  | cons b bs ih =>
    cases hb : s.lookup b with
    | some tb =>
      by_cases hid : tb.id = taskId
      · simp only [findRefAux, hb, if_pos hid, Option.some.injEq, Prod.mk.injEq] at h
        obtain ⟨rfl, rfl⟩ := h
        exact ⟨bs, by simp [deleteTaskAux, hb, hid]⟩
      · simp only [findRefAux, hb, if_neg hid] at h
        obtain ⟨rest, hrest⟩ := ih h
        exact ⟨b :: rest, by simp [deleteTaskAux, hb, hid, hrest]⟩
    | none =>
      simp only [findRefAux, hb] at h
      obtain ⟨rest, hrest⟩ := ih h
      exact ⟨b :: rest, by simp [deleteTaskAux, hb, hrest]⟩

/-- C5: deleting an id that is present returns the removed record, removes
exactly that task (the count decreases by exactly one), and a subsequent
`getTaskById` returns the `null` sentinel rather than raising; deleting an id
that is absent fails with the not-found error and leaves the store unchanged. -/
theorem c5_delete_removes_task (s : Store) (taskId : String) :
    (∀ a t, s.uniqueIds → s.findRef taskId = some (a, t) →
      ∃ s2, deleteTask taskId s = (.ok a, s2) ∧
        s2.lookup a = some t ∧
        getTaskCount s2 + 1 = getTaskCount s ∧
        getTaskById taskId s2 = none ∧
        s2.getByIdValue taskId = none) ∧
    (s.findRef taskId = none →
      deleteTask taskId s =
        (.error (.notFound ("Task with ID " ++ taskId ++ " not found")), s)) := by
  constructor
  · intro a t hu hf
    obtain ⟨rest, hd⟩ := deleteTaskAux_of_findRefAux hf
    refine ⟨{ s with tasksArr := rest }, deleteTask_found hd, ?_, ?_, ?_, ?_⟩
    · exact (findRefAux_eq_some hf).2.1
    · have := (deleteTaskAux_eq_some hd).1
      simp only [getTaskCount]
      omega
    · have hnone : findRefAux s taskId rest = none := findRefAux_delete_rest hd hu
      have hfr : Store.findRef { s with tasksArr := rest } taskId = none := by
        show findRefAux { s with tasksArr := rest } taskId rest = none
        have hcongr : findRefAux { s with tasksArr := rest } taskId rest =
            findRefAux s taskId rest :=
          findRefAux_congr taskId fun x hx => rfl
        rw [hcongr]
        exact hnone
      simp [getTaskById, hfr]
    · have hnone : findRefAux s taskId rest = none := findRefAux_delete_rest hd hu
      have hfr : Store.findRef { s with tasksArr := rest } taskId = none := by
        show findRefAux { s with tasksArr := rest } taskId rest = none
        have hcongr : findRefAux { s with tasksArr := rest } taskId rest =
            findRefAux s taskId rest :=
          findRefAux_congr taskId fun x hx => rfl
        rw [hcongr]
        exact hnone
      simp [Store.getByIdValue, hfr]
  · exact deleteTask_notFound

/-- Witness for C5 at concrete inputs: deleting the one task of a singleton
store succeeds and empties it; deleting from the empty store fails with
not-found. -/
theorem c5_witness :
    (∃ s2, deleteTask "task-0-r" (createTask "a" 0 0 0 "r" Store.empty).2 = (.ok 0, s2) ∧
      s2.lookup 0 = some ⟨"task-0-r", "a", "pending", 0, 0⟩ ∧
      getTaskCount s2 + 1 = getTaskCount (createTask "a" 0 0 0 "r" Store.empty).2 ∧
      getTaskById "task-0-r" s2 = none ∧
      s2.getByIdValue "task-0-r" = none) ∧
    deleteTask "zzz" Store.empty =
      (.error (.notFound "Task with ID zzz not found"), Store.empty) :=
  ⟨(c5_delete_removes_task (createTask "a" 0 0 0 "r" Store.empty).2 "task-0-r").1
      0 ⟨"task-0-r", "a", "pending", 0, 0⟩ (by decide) (by decide),
   (c5_delete_removes_task Store.empty "zzz").2 (by decide)⟩

/-- A successful status update writes the record through the found reference
and the updated record is what a subsequent lookup by id reads. -/
theorem update_found_getByIdValue {s : Store} {taskId : String} {a : Nat} {t : Task}
    (hf : s.findRef taskId = some (a, t)) (status : String)
    (hv : status = "pending" ∨ status = "completed") (now : Nat) :
    updateTaskStatus taskId status now s =
      (.ok a, s.writeHeap a { t with status := status, updatedAt := now }) ∧
    (s.writeHeap a { t with status := status, updatedAt := now }).findRef taskId =
      some (a, { t with status := status, updatedAt := now }) ∧
    (s.writeHeap a { t with status := status, updatedAt := now }).getByIdValue taskId =
      some { t with status := status, updatedAt := now } := by
  have hid : t.id = taskId := (findRefAux_eq_some hf).2.2
  have hfr : (s.writeHeap a { t with status := status, updatedAt := now }).findRef taskId =
      some (a, { t with status := status, updatedAt := now }) := findRefAux_writeHeap hf hid
  exact ⟨updateTaskStatus_found hv hf now, hfr, by simp [Store.getByIdValue, hfr]⟩

/-- C4: for a task present in the store, updating its status to "completed"
and then to "pending" round-trips: the final status is "pending", the id,
title and createdAt fields are unchanged, and updatedAt moves from the first
clock reading to the second, hence never decreases across the two calls under
a monotone clock; updating a pending task to "pending" also succeeds and
refreshes updatedAt to the clock reading of that call. -/
theorem c4_update_status_roundtrip (s : Store) (taskId : String) (a : Nat) (t : Task)
    (now1 now2 : Nat) (hf : s.findRef taskId = some (a, t)) (hm : now1 ≤ now2) :
    ∃ s1 s2,
      updateTaskStatus taskId "completed" now1 s = (.ok a, s1) ∧
      updateTaskStatus taskId "pending" now2 s1 = (.ok a, s2) ∧
      s1.getByIdValue taskId = some { t with status := "completed", updatedAt := now1 } ∧
      s2.getByIdValue taskId = some { t with status := "pending", updatedAt := now2 } ∧
      now1 ≤ now2 ∧
      (t.status = "pending" →
        ∃ s3, updateTaskStatus taskId "pending" now1 s = (.ok a, s3) ∧
          s3.getByIdValue taskId = some { t with status := "pending", updatedAt := now1 }) := by
  obtain ⟨h1, hf1, hg1⟩ := update_found_getByIdValue hf "completed" (Or.inr rfl) now1
  obtain ⟨h2, hf2, hg2⟩ := update_found_getByIdValue hf1 "pending" (Or.inl rfl) now2
  obtain ⟨h3, hf3, hg3⟩ := update_found_getByIdValue hf "pending" (Or.inl rfl) now1
  exact ⟨_, _, h1, h2, hg1, hg2, hm, fun hp => ⟨_, h3, hg3⟩⟩

/-- Witness for C4 at a concrete input: the single task of a singleton store
round-trips completed-then-pending with clock readings 1 and 2, and its
same-status update refreshes updatedAt. -/
theorem c4_witness :
    ∃ s1 s2,
      updateTaskStatus "task-0-r" "completed" 1 (createTask "a" 0 0 0 "r" Store.empty).2 =
        (.ok 0, s1) ∧
      updateTaskStatus "task-0-r" "pending" 2 s1 = (.ok 0, s2) ∧
      s1.getByIdValue "task-0-r" = some ⟨"task-0-r", "a", "completed", 0, 1⟩ ∧
      s2.getByIdValue "task-0-r" = some ⟨"task-0-r", "a", "pending", 0, 2⟩ ∧
      (1 : Nat) ≤ 2 ∧
      ((Task.mk "task-0-r" "a" "pending" 0 0).status = "pending" →
        ∃ s3, updateTaskStatus "task-0-r" "pending" 1
            (createTask "a" 0 0 0 "r" Store.empty).2 = (.ok 0, s3) ∧
          s3.getByIdValue "task-0-r" = some ⟨"task-0-r", "a", "pending", 0, 1⟩) :=
  c4_update_status_roundtrip (createTask "a" 0 0 0 "r" Store.empty).2 "task-0-r" 0
    (Task.mk "task-0-r" "a" "pending" 0 0) 1 2 (by decide) (by decide)

/-- Round-half-up of the percentage `100·c/t` computed exactly:
`Math.round((c/t)*100)` equals the integer `(200·c + t) / (2·t)`. -/
theorem mathRound_div_eq (c t : Nat) (ht : 0 < t) :
    mathRound ((c : ℚ) / (t : ℚ) * 100) = (((200 * c + t) / (2 * t) : ℕ) : ℤ) := by
  unfold mathRound
  have ht' : (t : ℚ) ≠ 0 := Nat.cast_ne_zero.mpr ht.ne'
  have h1 : (c : ℚ) / (t : ℚ) * 100 + 1/2 =
      ((200 * c + t : ℕ) : ℚ) / ((2 * t : ℕ) : ℚ) := by
    push_cast
    field_simp
    ring
  rw [h1, Rat.floor_natCast_div_natCast]
  exact_mod_cast rfl

/-- A store holding three pending tasks. -/
def threeTaskStore : Store :=
  (createTask "c" 2 2 2 "r3"
    (createTask "b" 1 1 1 "r2" (createTask "a" 0 0 0 "r1" Store.empty).2).2).2

/-- Three tasks, two of them completed. -/
def twoOfThreeStore : Store :=
  (updateTaskStatus "task-1-r2" "completed" 3
    (updateTaskStatus "task-0-r1" "completed" 3 threeTaskStore).2).2

/-- A store holding two pending tasks. -/
def twoTaskStore : Store :=
  (createTask "b" 1 1 1 "r2" (createTask "a" 0 0 0 "r1" Store.empty).2).2

/-- Two tasks, both completed. -/
def twoOfTwoStore : Store :=
  (updateTaskStatus "task-1-r2" "completed" 2
    (updateTaskStatus "task-0-r1" "completed" 2 twoTaskStore).2).2

/-- C6: the statistics endpoint derives `totalTasks` from the count query,
`completedTasks` from the completed-count query, `pendingTasks` as their
difference, and `completionRate` as round-half-up of `completed/total·100`
when the total is positive and `0` otherwise; in particular 0 tasks give 0,
2 completed of 3 give 67, 0 completed of 2 give 0, and 2 completed of 2 give
100. -/
theorem c6_stats_derivation (s : Store) :
    (getStats s).totalTasks = getTaskCount s ∧
    (getStats s).completedTasks = getCompletedTaskCount s ∧
    (getStats s).pendingTasks = getTaskCount s - getCompletedTaskCount s ∧
    (getStats s).completionRate =
      (if 0 < getTaskCount s
        then (((200 * getCompletedTaskCount s + getTaskCount s) /
          (2 * getTaskCount s) : ℕ) : ℤ)
        else 0) ∧
    (getStats Store.empty).completionRate = 0 ∧
    (getStats twoOfThreeStore).completionRate = 67 ∧
    (getStats twoTaskStore).completionRate = 0 ∧
    (getStats twoOfTwoStore).completionRate = 100 := by
  have hrate : ∀ s2 : Store, (getStats s2).completionRate =
      (if 0 < getTaskCount s2
        then (((200 * getCompletedTaskCount s2 + getTaskCount s2) /
          (2 * getTaskCount s2) : ℕ) : ℤ)
        else 0) := by
    intro s2
    by_cases hp : 0 < getTaskCount s2
    · simp only [getStats, if_pos hp]
      exact mathRound_div_eq (getCompletedTaskCount s2) (getTaskCount s2) hp
    · simp only [getStats, if_neg hp]
  have h23t : getTaskCount twoOfThreeStore = 3 := by decide
  have h23c : getCompletedTaskCount twoOfThreeStore = 2 := by decide
  have h20t : getTaskCount twoTaskStore = 2 := by decide
  have h20c : getCompletedTaskCount twoTaskStore = 0 := by decide
  have h22t : getTaskCount twoOfTwoStore = 2 := by decide
  have h22c : getCompletedTaskCount twoOfTwoStore = 2 := by decide
  refine ⟨rfl, rfl, rfl, hrate s, ?_, ?_, ?_, ?_⟩
  · rw [hrate Store.empty]
    decide
  · rw [hrate twoOfThreeStore, h23t, h23c]
    norm_num
  · rw [hrate twoTaskStore, h20t, h20c]
    norm_num
  · rw [hrate twoOfTwoStore, h22t, h22c]
    norm_num

/-- A sample task used in the concrete pagination examples. -/
def demoTask (n : Nat) : Task :=
  ⟨toString n, toString n, "pending", 0, 0⟩

/-- Four sample tasks. -/
def demoTasks : List Task :=
  [demoTask 1, demoTask 2, demoTask 3, demoTask 4]

/-- Strict bound against the ceiling page count: a page index is below
`Math.ceil(len / ps)` exactly when its slice start is below `len`. -/
theorem lt_ceilDiv_iff {cp len ps : Nat} (h : 0 < ps) :
    cp < (len + ps - 1) / ps ↔ cp * ps < len := by
  rw [Nat.lt_iff_add_one_le, Nat.le_div_iff_mul_le h]
  have hexp : (cp + 1) * ps = cp * ps + ps := by ring
  rw [hexp]
  omega

/-- C7: for every task list, requested page and positive page size,
`paginateTasks` reports the item total and the ceiling page total, clamps the
current page into `[1, totalPages]` (to 1 when there are no items; an
in-range request is left unchanged), returns the corresponding slice of its
(unmutated) input, and sets `hasNextPage`/`hasPrevPage` to whether a later
resp. earlier page exists; in particular for 4 items with page size 2, page 1
yields 2 items with a next page and no previous page, page 2 yields 2 items
with a previous page and no next page, and page 999 is clamped to page 2. -/
theorem c7_pagination (tasks : List Task) (page : Int) (pageSize : Nat)
    (h : 0 < pageSize) :
    (paginateTasks tasks page pageSize).totalItems = tasks.length ∧
    (paginateTasks tasks page pageSize).totalPages =
      (tasks.length + pageSize - 1) / pageSize ∧
    1 ≤ (paginateTasks tasks page pageSize).page ∧
    (tasks.length = 0 → (paginateTasks tasks page pageSize).page = 1) ∧
    (0 < tasks.length → (paginateTasks tasks page pageSize).page ≤
      (paginateTasks tasks page pageSize).totalPages) ∧
    (1 ≤ page → page ≤ ((paginateTasks tasks page pageSize).totalPages : Int) →
      ((paginateTasks tasks page pageSize).page : Int) = page) ∧
    (paginateTasks tasks page pageSize).tasks =
      (tasks.drop (((paginateTasks tasks page pageSize).page - 1) * pageSize)).take
        pageSize ∧
    ((paginateTasks tasks page pageSize).hasNextPage = true ↔
      (paginateTasks tasks page pageSize).page * pageSize < tasks.length) ∧
    ((paginateTasks tasks page pageSize).hasPrevPage = true ↔
      1 < (paginateTasks tasks page pageSize).page) ∧
    (paginateTasks demoTasks 1 2).tasks.length = 2 ∧
    (paginateTasks demoTasks 1 2).hasNextPage = true ∧
    (paginateTasks demoTasks 1 2).hasPrevPage = false ∧
    (paginateTasks demoTasks 2 2).tasks.length = 2 ∧
    (paginateTasks demoTasks 2 2).hasNextPage = false ∧
    (paginateTasks demoTasks 2 2).hasPrevPage = true ∧
    (paginateTasks demoTasks 999 2).page = 2 := by
  simp only [paginateTasks]
  refine ⟨trivial, trivial, ?_, ?_, ?_, ?_, trivial, ?_, ?_,
    by decide, by decide, by decide, by decide, by decide, by decide, by decide⟩
  · by_cases htp : (tasks.length + pageSize - 1) / pageSize = 0
    · simp [htp]
    · simp only [htp, if_neg]
      omega
  · intro h0
    rw [h0]
    have htp : (0 + pageSize - 1) / pageSize = 0 := Nat.div_eq_of_lt (by omega)
    rw [htp]
    simp
  · intro hl
    have htp1 : 1 ≤ (tasks.length + pageSize - 1) / pageSize := by
      rw [Nat.le_div_iff_mul_le h, one_mul]
      omega
    rw [if_neg (by omega)]
    omega
  · intro h1 h2
    by_cases hz : (tasks.length + pageSize - 1) / pageSize = 0
    · rw [hz] at h2
      simp only [hz, if_pos]
      omega
    · rw [if_neg hz]
      omega
  · simp only [decide_eq_true_eq]
    exact lt_ceilDiv_iff h
  · simp only [decide_eq_true_eq]

/-- Witness for C7 at a concrete input: with positive page size 2, the
out-of-range request for page 999 of the 4 demo tasks is clamped to page 2. -/
theorem c7_witness :
    0 < 2 ∧ (paginateTasks demoTasks 999 2).page = 2 :=
  ⟨by decide,
   (c7_pagination demoTasks 999 2 (by decide)).2.2.2.2.2.2.2.2.2.2.2.2.2.2.2⟩

theorem string_append_left_cancel {a r1 r2 : String} (h : a ++ r1 = a ++ r2) :
    r1 = r2 := by
  have hd : (a ++ r1).data = (a ++ r2).data := congrArg String.data h
  simp only [String.data_append] at hd
  have h2 := List.append_cancel_left hd
  cases r1
  cases r2
  exact congrArg String.mk h2

/-- C8 counterexample: two `createTask` calls that read the same millisecond
clock value and draw the same random suffix produce the same id: after
creating two tasks with `Date.now() = 5` and suffix `"r"`, the stored ids are
not pairwise distinct, so uniqueness is not guaranteed by the code. -/
theorem c8_counterexample :
    ¬ (((createTask "b" 5 5 5 "r"
        (createTask "a" 5 5 5 "r" Store.empty).2).2.listValues.map Task.id).Nodup) := by
  decide

/-- C8 amended: ids of two calls in the same millisecond are distinct exactly
when their random suffixes differ: `generateId` at a fixed clock reading is
injective in the suffix, and two same-millisecond creates that draw distinct
suffixes append tasks with distinct ids (while equal suffixes collide, as the
counterexample shows). -/
theorem c8_amended_same_millisecond_ids (now : Nat) (r1 r2 : String) (h : r1 ≠ r2)
    (title1 title2 : String) (tC tU tC2 tU2 : Nat) (s : Store) (hWF : s.WF)
    (h1 : jsTrim title1 ≠ "") (h2 : jsTrim title2 ≠ "") :
    generateId now r1 ≠ generateId now r2 ∧
    ∃ u v : Task,
      (createTask title2 now tC2 tU2 r2
        (createTask title1 now tC tU r1 s).2).2.listValues =
        s.listValues ++ [u, v] ∧ u.id ≠ v.id := by
  have hgen : generateId now r1 ≠ generateId now r2 := by
    intro he
    apply h
    unfold generateId at he
    rw [String.append_assoc, String.append_assoc] at he
    rw [String.append_assoc, String.append_assoc] at he
    exact string_append_left_cancel (string_append_left_cancel
      (string_append_left_cancel he))
  refine ⟨hgen, ⟨generateId now r1, jsTrim title1, "pending", tC, tU⟩,
    ⟨generateId now r2, jsTrim title2, "pending", tC2, tU2⟩, ?_, hgen⟩
  have e1 := listValues_createTask hWF.2.1 h1 now tC tU r1
  have hWF1 := hWF.createTask title1 now tC tU r1
  have e2 := listValues_createTask hWF1.2.1 h2 now tC2 tU2 r2
  rw [e2, e1, List.append_assoc]
  rfl

/-- Witness for the amended C8 at a concrete input: suffixes `"r"` and `"q"`
drawn in millisecond 5 give the distinct ids `task-5-r` and `task-5-q`. -/
theorem c8_witness :
    generateId 5 "r" ≠ generateId 5 "q" ∧
    ∃ u v : Task,
      (createTask "b" 5 5 5 "q"
        (createTask "a" 5 5 5 "r" Store.empty).2).2.listValues =
        Store.empty.listValues ++ [u, v] ∧ u.id ≠ v.id :=
  c8_amended_same_millisecond_ids 5 "r" "q" (by decide) "a" "b" 5 5 5 5 Store.empty
    (by decide) (by decide) (by decide)

/-- C1 counterexample: `createTask` returns a reference to the stored object,
not an independent copy: mutating the title of the returned object changes
the store — a subsequent list query reports the modified title. -/
theorem c1_counterexample :
    (mutateRef (createTask "Original Task" 0 0 0 "r" Store.empty).2 0
        (fun t => { t with title := "Modified Task" })).listValues ≠
      (createTask "Original Task" 0 0 0 "r" Store.empty).2.listValues := by
  decide

/-- C1 amended: only `getTasks` (the list operation) returns independent
copies: its result addresses lie outside the store's array, and mutating any
field through them leaves the values of all subsequent list and lookup-by-id
queries unchanged; `createTask`, `getTaskById` and `updateTaskStatus` instead
return references into the store's array (aliases of the stored record), so
mutation through those is visible in the store, as the counterexample shows. -/
theorem c1_amended_copy_only_for_list (s : Store) (hWF : s.WF) :
    (∀ b ∈ (getTasks s).1, b ∉ (getTasks s).2.tasksArr ∧
      ∀ f : Task → Task,
        (mutateRef (getTasks s).2 b f).listValues = (getTasks s).2.listValues ∧
        ∀ taskId, (mutateRef (getTasks s).2 b f).getByIdValue taskId =
          (getTasks s).2.getByIdValue taskId) ∧
    (∀ title tId tC tU rand a,
      (createTask title tId tC tU rand s).1 = .ok a →
      a ∈ (createTask title tId tC tU rand s).2.tasksArr) ∧
    (∀ taskId a, getTaskById taskId s = some a → a ∈ s.tasksArr) ∧
    (∀ taskId status now a,
      (updateTaskStatus taskId status now s).1 = .ok a →
      a ∈ (updateTaskStatus taskId status now s).2.tasksArr) := by
  obtain ⟨e1, e2, e3, e4⟩ := getTasksAux_spec s.tasksArr s hWF.2.1
  refine ⟨?_, ?_, ?_, ?_⟩
  · intro b hb
    have hbfresh : s.nextAddr ≤ b := e3 b hb
    have hbnotmem : b ∉ (getTasks s).2.tasksArr := by
      rw [show (getTasks s).2.tasksArr = s.tasksArr from e1]
      intro hmem
      have := hWF.2.1 b hmem
      omega
    refine ⟨hbnotmem, fun f => ?_⟩
    cases hl : (getTasks s).2.lookup b with
    | none => simp [mutateRef, hl]
    | some t =>
      simp only [mutateRef, hl]
      exact ⟨Store.listValues_writeHeap_of_not_mem (f t) hbnotmem,
        fun taskId => Store.getByIdValue_writeHeap_of_not_mem (f t) hbnotmem taskId⟩
  · intro title tId tC tU rand a ha
    by_cases ht : jsTrim title = ""
    · rw [createTask_invalid ht] at ha
      simp at ha
    · rw [createTask_ok ht] at ha ⊢
      simp only [Except.ok.injEq] at ha
      subst ha
      simp
  · intro taskId a ha
    unfold getTaskById at ha
    obtain ⟨⟨b, t⟩, hfind, hb⟩ := Option.map_eq_some'.mp ha
    obtain ⟨hmem, _, _⟩ := findRefAux_eq_some hfind
    simpa [← hb] using hmem
  · intro taskId status now a ha
    by_cases hv : status = "pending" ∨ status = "completed"
    · cases hf : s.findRef taskId with
      | none =>
        rw [updateTaskStatus_notFound hv hf] at ha
        simp at ha
      | some p =>
        obtain ⟨x, t⟩ := p
        rw [updateTaskStatus_found hv hf] at ha ⊢
        simp only [Except.ok.injEq] at ha
        subst ha
        rw [Store.tasksArr_writeHeap]
        exact (findRefAux_eq_some hf).1
    · push_neg at hv
      rw [updateTaskStatus_invalid hv.1 hv.2] at ha
      simp at ha

/-- Witness for the amended C1 at a concrete input: the singleton store built
by one create is well-formed, and every successful `getTaskById` on it
returns a reference into its array. -/
theorem c1_witness :
    Store.WF (createTask "a" 0 0 0 "r" Store.empty).2 ∧
    (∀ taskId a, getTaskById taskId (createTask "a" 0 0 0 "r" Store.empty).2 = some a →
      a ∈ (createTask "a" 0 0 0 "r" Store.empty).2.tasksArr) :=
  ⟨by decide, (c1_amended_copy_only_for_list _ (by decide)).2.2.1⟩

end AgileLab
